import Mathlib

/-!
Verification development for the bookmark-management portal.

The session gate's route matcher (`config.matcher = ["/dashboard/:path*"]`),
the auth form schemas, and the update-password page are embedded from the
source files.  The supabase middleware client, metadata extractor, import
parser, batch insert, and slug toggle are not present in the source tree;
they are modelled from the specification, as marked on each definition.
-/

namespace Portal

/-- A user account, identified opaquely. -/
structure User where
  id : String
deriving DecidableEq, Repr

/-- Boolean test that `s` starts with the character list `pre`. -/
def charsStart : List Char → List Char → Bool
  | [], _ => true
  | _ :: _, [] => false
  | p :: ps, s :: ss => p == s && charsStart ps ss

theorem charsStart_iff (ps : List Char) :
    ∀ ss, charsStart ps ss = true ↔ ∃ t, ss = ps ++ t := by
  induction ps with
  | nil =>
    intro ss
    simp [charsStart]
  | cons p ps ih =>
    intro ss
    cases ss with
    | nil =>
      simp [charsStart]
    | cons s ss =>
      simp only [charsStart, Bool.and_eq_true, beq_iff_eq, ih]
      constructor
      · rintro ⟨rfl, t, rfl⟩
        exact ⟨t, rfl⟩
      · rintro ⟨t, h⟩
        cases h
        exact ⟨rfl, t, rfl⟩

/-- Embeds `config.matcher = ["/dashboard/:path*"]` from the middleware file:
the Next.js pattern `/dashboard/:path*` matches `/dashboard` itself and every
path continuing with a slash-separated remainder. -/
def interceptsDashboard (path : String) : Bool :=
  path == "/dashboard" || charsStart "/dashboard/".data path.data

/-- The claim's wording for the protected region: the path is `/dashboard`
or one of its subpaths. -/
def underDashboard (path : String) : Prop :=
  path = "/dashboard" ∨ ∃ rest : String, path = "/dashboard/" ++ rest

/-- Outcome of asking the remote service to validate/refresh the session. -/
inductive SessionCheck where
  | valid (u : User)
  | absent
  | failure (err : String)
deriving DecidableEq, Repr

/-- Modelled from the spec: "any validation error is treated as no user" —
the user resulting from a session check, with every error collapsed to
absence. -/
def userOf : SessionCheck → Option User
  | .valid u => some u
  | .absent => none
  | .failure _ => none

/-- Response of the request gate. `thrown` marks an exception escaping the
gate, which the model must never produce. -/
inductive GateResponse where
  | next
  | redirectSignIn
  | thrown (err : String)
deriving DecidableEq, Repr

/-- Modelled from the spec: the middleware client validates the session and,
if no valid user results, redirects to the sign-in page; otherwise the
request proceeds. -/
def gateDecision (check : SessionCheck) : GateResponse :=
  match userOf check with
  | some _ => .next
  | none => .redirectSignIn

/-- The session gate as a whole: the middleware only runs on paths matched by
`config.matcher`; elsewhere the request is served untouched. -/
def sessionGate (path : String) (check : SessionCheck) : GateResponse :=
  if interceptsDashboard path then gateDecision check else .next

theorem interceptsDashboard_iff (path : String) :
    interceptsDashboard path = true ↔ underDashboard path := by
  unfold interceptsDashboard underDashboard
  simp only [Bool.or_eq_true, beq_iff_eq, charsStart_iff]
  constructor
  · rintro (h | ⟨t, ht⟩)
    · exact Or.inl h
    · refine Or.inr ⟨⟨t⟩, ?_⟩
      apply String.ext
      simpa [String.data_append] using ht
  · rintro (h | ⟨rest, rfl⟩)
    · exact Or.inl h
    · exact Or.inr ⟨rest.data, by simp [String.data_append]⟩

/-- Result of rendering the update-password server page. -/
inductive PageResult where
  | redirect (target : String)
  | render
deriving DecidableEq, Repr

/-- Embeds `UpdatePasswordPage` from `src/app/auth/update-password/page.tsx`:
fetch the current user; without one, redirect to
`/auth/signin?error=session_expired`; otherwise render the form. -/
def updatePasswordPage (user : Option User) : PageResult :=
  match user with
  | none => .redirect "/auth/signin?error=session_expired"
  | some _ => .render

/-- Values of the sign-up form. -/
structure SignUpValues where
  email : String
  password : String
  confirmPassword : String
deriving DecidableEq, Repr

/-- Values of the update-password form. -/
structure UpdatePasswordValues where
  password : String
  confirmPassword : String
deriving DecidableEq, Repr

/-- Embeds `signUpSchema` from the sign-up form: a valid email (`emailOk`
stands for zod's email validator, an external library check), a password of
6 to 72 characters, a nonempty confirmation, and the refinement that the
password equals the confirmation. -/
def signUpValid (emailOk : String → Bool) (v : SignUpValues) : Bool :=
  emailOk v.email
    && decide (6 ≤ v.password.length)
    && decide (v.password.length ≤ 72)
    && decide (1 ≤ v.confirmPassword.length)
    && (v.password == v.confirmPassword)

/-- Embeds `updatePasswordSchema` from
`src/components/auth/update-password-form.tsx`: a password of 6 to 72
characters, a nonempty confirmation, and password = confirmation. -/
def updatePasswordValid (v : UpdatePasswordValues) : Bool :=
  decide (6 ≤ v.password.length)
    && decide (v.password.length ≤ 72)
    && decide (1 ≤ v.confirmPassword.length)
    && (v.password == v.confirmPassword)

/-- What a form submission does: either the remote auth call with the
submitted credentials, or a field validation error with no remote call. -/
inductive SubmitOutcome where
  | remoteCall (password : String)
  | fieldError
deriving DecidableEq, Repr

/-- Embeds `form.handleSubmit(onSubmit)` of the sign-up form: the resolver
runs `signUpSchema` and invokes `onSubmit` — which calls
`supabase.auth.signUp` — only when validation passes. -/
def signUpSubmit (emailOk : String → Bool) (v : SignUpValues) :
    SubmitOutcome :=
  if signUpValid emailOk v then .remoteCall v.password else .fieldError

/-- Embeds `form.handleSubmit(onSubmit)` of the update-password form: the
resolver runs `updatePasswordSchema` and invokes `onSubmit` — which calls
`supabase.auth.updateUser` — only when validation passes. -/
def updatePasswordSubmit (v : UpdatePasswordValues) : SubmitOutcome :=
  if updatePasswordValid v then .remoteCall v.password else .fieldError

/-- Fuel-indexed worker for batch splitting; the fuel is set to the list
length, which bounds the number of batches. -/
def toBatchesAux {α : Type} (okSize : Nat) : Nat → List α → List (List α)
  | 0, _ => []
  | _ + 1, [] => []
  | fuel + 1, x :: xs =>
      ((x :: xs).take okSize) :: toBatchesAux okSize fuel ((x :: xs).drop okSize)

/-- Modelled from the spec: "Selected records are submitted to the remote
service in fixed batches of 100" — split the accepted records into
consecutive batches of 100, the final batch holding the remainder. -/
def toBatches {α : Type} (xs : List α) : List (List α) :=
  toBatchesAux 100 xs.length xs

theorem toBatchesAux_nil {α : Type} (fuel : Nat) :
    toBatchesAux (α := α) 100 fuel [] = [] := by
  cases fuel <;> rfl

theorem toBatchesAux_eq_nil_iff {α : Type} (fuel : Nat) (xs : List α)
    (h : xs.length ≤ fuel) : toBatchesAux 100 fuel xs = [] ↔ xs = [] := by
  cases fuel with
  | zero =>
    have : xs = [] := List.length_eq_zero.mp (Nat.le_zero.mp h)
    subst this
    simp [toBatchesAux]
  | succ fuel =>
    cases xs with
    | nil => simp [toBatchesAux]
    | cons x xs => simp [toBatchesAux]

theorem toBatchesAux_length {α : Type} :
    ∀ (fuel : Nat) (xs : List α), xs.length ≤ fuel →
      (toBatchesAux 100 fuel xs).length = (xs.length + 99) / 100 := by
  intro fuel
  induction fuel with
  | zero =>
    intro xs h
    have : xs = [] := List.length_eq_zero.mp (Nat.le_zero.mp h)
    subst this
    simp [toBatchesAux]
  | succ fuel ih =>
    intro xs h
    cases xs with
    | nil => simp [toBatchesAux]
    | cons x xs =>
      have hd : ((x :: xs).drop 100).length = (x :: xs).length - 100 :=
        List.length_drop 100 (x :: xs)
      have hle : ((x :: xs).drop 100).length ≤ fuel := by
        rw [hd]
        simp only [List.length_cons] at h ⊢
        omega
      simp only [toBatchesAux, List.length_cons, ih _ hle, hd]
      omega

theorem toBatchesAux_dropLast {α : Type} :
    ∀ (fuel : Nat) (xs : List α), xs.length ≤ fuel →
      ∀ b ∈ (toBatchesAux 100 fuel xs).dropLast, b.length = 100 := by
  intro fuel
  induction fuel with
  | zero =>
    intro xs h
    have : xs = [] := List.length_eq_zero.mp (Nat.le_zero.mp h)
    subst this
    simp [toBatchesAux]
  | succ fuel ih =>
    intro xs h
    cases xs with
    | nil => simp [toBatchesAux]
    | cons x xs =>
      simp only [toBatchesAux]
      have hd : ((x :: xs).drop 100).length = (x :: xs).length - 100 :=
        List.length_drop 100 (x :: xs)
      have hle : ((x :: xs).drop 100).length ≤ fuel := by
        rw [hd]
        simp only [List.length_cons] at h ⊢
        omega
      by_cases hrest : toBatchesAux 100 fuel ((x :: xs).drop 100) = []
      · rw [hrest]
        simp
      · have hne : (x :: xs).drop 100 ≠ [] := by
          intro hnil
          exact hrest (by rw [hnil]; exact toBatchesAux_nil fuel)
        have hbig : 100 < (x :: xs).length := by
          have := List.length_pos.mpr hne
          omega
        rw [List.dropLast_cons_of_ne_nil hrest]
        intro b hb
        rcases List.mem_cons.mp hb with rfl | hb
        · rw [List.length_take]
          omega
        · exact ih _ hle b hb

theorem toBatchesAux_getLast {α : Type} :
    ∀ (fuel : Nat) (xs : List α), xs.length ≤ fuel →
      ∀ b, (toBatchesAux 100 fuel xs).getLast? = some b →
        b.length = if xs.length % 100 = 0 then 100 else xs.length % 100 := by
  intro fuel
  induction fuel with
  | zero =>
    intro xs h b hb
    have : xs = [] := List.length_eq_zero.mp (Nat.le_zero.mp h)
    subst this
    simp [toBatchesAux] at hb
  | succ fuel ih =>
    intro xs h
    cases xs with
    | nil =>
      intro b hb
      simp [toBatchesAux] at hb
    | cons x xs =>
      intro b hb
      simp only [toBatchesAux] at hb
      have hd : ((x :: xs).drop 100).length = (x :: xs).length - 100 :=
        List.length_drop 100 (x :: xs)
      have hle : ((x :: xs).drop 100).length ≤ fuel := by
        rw [hd]
        simp only [List.length_cons] at h ⊢
        omega
      by_cases hrest : toBatchesAux 100 fuel ((x :: xs).drop 100) = []
      · rw [hrest, List.getLast?_singleton] at hb
        have hb' : b = (x :: xs).take 100 := by
          injection hb with hb'
          exact hb'.symm
        have hsmall : (x :: xs).length ≤ 100 := by
          by_contra hgt
          have hne : (x :: xs).drop 100 ≠ [] := by
            intro hnil
            have := congrArg List.length hnil
            simp only [hd, List.length_nil] at this
            omega
          exact hne ((toBatchesAux_eq_nil_iff fuel _ hle).mp hrest)
        subst hb'
        rw [List.length_take]
        have hpos : 0 < (x :: xs).length := by simp
        split <;> omega
      · rcases List.exists_cons_of_ne_nil hrest with ⟨r, rs, hcons⟩
        rw [hcons] at hb
        rw [List.getLast?_cons_cons] at hb
        rw [← hcons] at hb
        have hne : (x :: xs).drop 100 ≠ [] :=
          fun hnil => hrest (by rw [hnil]; exact toBatchesAux_nil fuel)
        have hbig : 100 < (x :: xs).length := by
          have := List.length_pos.mpr hne
          omega
        have := ih _ hle b hb
        rw [hd] at this
        have hmod : ((x :: xs).length - 100) % 100 = (x :: xs).length % 100 := by
          omega
        rw [hmod] at this
        exact this

theorem toBatchesAux_flatten {α : Type} :
    ∀ (fuel : Nat) (xs : List α), xs.length ≤ fuel →
      (toBatchesAux 100 fuel xs).flatten = xs := by
  intro fuel
  induction fuel with
  | zero =>
    intro xs h
    have : xs = [] := List.length_eq_zero.mp (Nat.le_zero.mp h)
    subst this
    simp [toBatchesAux]
  | succ fuel ih =>
    intro xs h
    cases xs with
    | nil => simp [toBatchesAux]
    | cons x xs =>
      have hle : ((x :: xs).drop 100).length ≤ fuel := by
        rw [List.length_drop]
        simp only [List.length_cons] at h ⊢
        omega
      simp only [toBatchesAux, List.flatten_cons, ih _ hle]
      exact List.take_append_drop 100 (x :: xs)


/-- Report of one submitted batch: its position, its size, and whether the
remote insert succeeded. -/
structure BatchReport where
  index : Nat
  size : Nat
  ok : Bool
deriving DecidableEq, Repr

/-- Modelled from the spec: per-batch outcome reports — the batch at
position `i` is reported individually with the remote outcome `okAt i`. -/
def importReports {α : Type} (okAt : Nat → Bool) :
    Nat → List (List α) → List BatchReport
  | _, [] => []
  | i, b :: bs => ⟨i, b.length, okAt i⟩ :: importReports okAt (i + 1) bs

/-- Modelled from the spec: the rows present after the run — each batch is
its own remote insert, so a successful batch's rows stay committed no
matter what later batches do; a failed batch contributes nothing and rolls
nothing back. -/
def importCommitted {α : Type} (okAt : Nat → Bool) :
    Nat → List (List α) → List α
  | _, [] => []
  | i, b :: bs => (if okAt i then b else []) ++ importCommitted okAt (i + 1) bs

/-- Modelled from the spec: run a bulk import — split the accepted records
into batches of 100, submit them sequentially, and return the per-batch
reports together with the committed rows. -/
def runImport {α : Type} (okAt : Nat → Bool) (xs : List α) :
    List BatchReport × List α :=
  (importReports okAt 0 (toBatches xs), importCommitted okAt 0 (toBatches xs))

theorem importReports_length {α : Type} (okAt : Nat → Bool) :
    ∀ (bs : List (List α)) (i : Nat),
      (importReports okAt i bs).length = bs.length := by
  intro bs
  induction bs with
  | nil => intro i; rfl
  | cons b bs ih => intro i; simp [importReports, ih]

theorem importReports_get {α : Type} (okAt : Nat → Bool) :
    ∀ (bs : List (List α)) (i j : Nat) (r : BatchReport),
      (importReports okAt i bs)[j]? = some r →
        ∃ b, bs[j]? = some b ∧ r = ⟨i + j, b.length, okAt (i + j)⟩ := by
  intro bs
  induction bs with
  | nil =>
    intro i j r h
    simp [importReports] at h
  | cons b bs ih =>
    intro i j r h
    cases j with
    | zero =>
      rw [importReports, List.getElem?_cons_zero] at h
      injection h with h
      exact ⟨b, List.getElem?_cons_zero, by simp [← h]⟩
    | succ j =>
      rw [importReports, List.getElem?_cons_succ] at h
      rcases ih (i + 1) j r h with ⟨c, hc, hr⟩
      refine ⟨c, by rw [List.getElem?_cons_succ]; exact hc, ?_⟩
      rw [hr]
      have : i + 1 + j = i + (j + 1) := by omega
      rw [this]

theorem mem_importCommitted {α : Type} (okAt : Nat → Bool) :
    ∀ (bs : List (List α)) (i j : Nat) (b : List α) (a : α),
      bs[j]? = some b → okAt (i + j) = true → a ∈ b →
        a ∈ importCommitted okAt i bs := by
  intro bs
  induction bs with
  | nil =>
    intro i j b a h
    simp at h
  | cons c bs ih =>
    intro i j b a h hok ha
    cases j with
    | zero =>
      rw [List.getElem?_cons_zero] at h
      injection h with h
      subst h
      rw [importCommitted]
      apply List.mem_append_left
      rw [if_pos]
      · exact ha
      · simpa using hok
    | succ j =>
      rw [List.getElem?_cons_succ] at h
      rw [importCommitted]
      apply List.mem_append_right
      apply ih (i + 1) j b a h _ ha
      have : i + 1 + j = i + (j + 1) := by omega
      rw [this]
      exact hok



/-- A collection, restricted to the fields the visibility toggle touches. -/
structure Collection where
  isPublic : Bool
  slug : Option String
deriving DecidableEq, Repr

/-- Modelled from the spec: toggling a collection from private to public —
when no slug exists yet, a freshly generated 8-character identifier `gen`
is persisted; an already-slugged collection keeps its slug unchanged. -/
def makePublic (gen : String) (c : Collection) : Collection :=
  match c.slug with
  | some _ => { c with isPublic := true }
  | none => { isPublic := true, slug := some gen }

/-- Modelled from the spec: toggling back to private does not clear the
slug. -/
def makePrivate (c : Collection) : Collection :=
  { c with isPublic := false }

/-- An anchor element of a browser bookmark export file. -/
structure Anchor where
  href : String
  text : String
  addDate : Option String
deriving DecidableEq, Repr

/-- Reads a decimal natural from a string; `none` unless the string is
nonempty and entirely digits. -/
def decimalNat (s : String) : Option Nat :=
  if s.length != 0 && s.data.all Char.isDigit then
    some (s.data.foldl (fun n c => n * 10 + (c.toNat - 48)) 0)
  else none

/-- A candidate bookmark record produced by the import parser. -/
structure Candidate where
  url : String
  title : String
  createdAt : Nat
deriving DecidableEq, Repr

/-- Modelled from the spec: one anchor yields one candidate record — the
URL is the href passed through unvalidated, the title is the anchor's text
falling back to the href when the text is empty, and the timestamp comes
from a present-and-numeric add-date attribute, otherwise the current time
`now`. -/
def parseAnchor (now : Nat) (a : Anchor) : Candidate :=
  { url := a.href
  , title := if a.text = "" then a.href else a.text
  , createdAt :=
      match a.addDate with
      | some d => (decimalNat d).getD now
      | none => now }

/-- Modelled from the spec: the import parser turns every anchor of the
file into exactly one candidate record. -/
def parseImport (now : Nat) (anchors : List Anchor) : List Candidate :=
  anchors.map (parseAnchor now)

/-- A head tag relevant to metadata extraction. -/
inductive HeadTag where
  | metaProperty (prop content : String)
  | metaNamed (nm content : String)
  | titleTag (text : String)
  | linkTag (rel href : String)
deriving DecidableEq, Repr

/-- The metadata record returned to the caller of the metadata endpoint. -/
structure Metadata where
  title : Option String
  description : Option String
  favicon_url : Option String
deriving DecidableEq, Repr

/-- First `<meta property=p content=c>` tag's content, scanning in document
order. -/
def findMetaProperty (p : String) (tags : List HeadTag) : Option String :=
  tags.findSome? fun t =>
    match t with
    | .metaProperty q c => if q = p then some c else none
    | _ => none

/-- First `<meta name=n content=c>` tag's content. -/
def findMetaNamed (n : String) (tags : List HeadTag) : Option String :=
  tags.findSome? fun t =>
    match t with
    | .metaNamed m c => if m = n then some c else none
    | _ => none

/-- First `<title>` tag's text. -/
def findTitleTag (tags : List HeadTag) : Option String :=
  tags.findSome? fun t =>
    match t with
    | .titleTag x => some x
    | _ => none

/-- First `<link rel=r href=h>` tag's href. -/
def findLinkTag (r : String) (tags : List HeadTag) : Option String :=
  tags.findSome? fun t =>
    match t with
    | .linkTag q h => if q = r then some h else none
    | _ => none

/-- The host part up to the next path separator. -/
def hostChars : List Char → List Char
  | [] => []
  | c :: cs => if c = '/' then [] else c :: hostChars cs

/-- Scans for the `://` separator and keeps scheme, separator and host. -/
def originChars : List Char → Option (List Char)
  | [] => none
  | ':' :: '/' :: '/' :: rest => some (':' :: '/' :: '/' :: hostChars rest)
  | c :: cs => (originChars cs).map (c :: ·)

/-- Modelled from the spec: the origin (scheme and host) of the input URL,
for the same-origin `/favicon.ico` fallback. -/
def origin (url : String) : String :=
  match originChars url.data with
  | some cs => ⟨cs⟩
  | none => url

/-- Modelled from the spec: extract metadata from a successfully parsed
page in priority order — OpenGraph title, else document title, else null;
OpenGraph description, else standard meta description, else null; icon
link, else shortcut icon link, else same-origin `/favicon.ico`. -/
def extractMetadata (url : String) (tags : List HeadTag) : Metadata :=
  { title := (findMetaProperty "og:title" tags).orElse fun _ =>
      findTitleTag tags
  , description := (findMetaProperty "og:description" tags).orElse fun _ =>
      findMetaNamed "description" tags
  , favicon_url := some (((findLinkTag "icon" tags).orElse fun _ =>
      findLinkTag "shortcut icon" tags).getD (origin url ++ "/favicon.ico")) }

/-- Outcome of the outbound page fetch, which is bounded by a 5-second
timeout. -/
inductive FetchOutcome where
  | success (tags : List HeadTag)
  | networkError
  | timeout
  | parseFailure
deriving DecidableEq, Repr

/-- Modelled from the spec: metadata extraction is total — any network
error, timeout or parse failure yields the all-null record rather than
propagating an error; a successful parse goes through the extractor. -/
def fetchMetadata (url : String) (outcome : FetchOutcome) : Metadata :=
  match outcome with
  | .success tags => extractMetadata url tags
  | .networkError => { title := none, description := none, favicon_url := none }
  | .timeout => { title := none, description := none, favicon_url := none }
  | .parseFailure => { title := none, description := none, favicon_url := none }


end Portal

namespace Portal

/-- C1: the session gate intercepts a request iff its path is under the
dashboard prefix (`/dashboard` and its subpaths); an intercepted request
without a valid session is redirected to sign-in, and requests outside the
matched prefix pass through unchanged. -/
theorem gate_intercepts_iff_dashboard (path : String) :
    (interceptsDashboard path = true ↔ underDashboard path)
    ∧ (interceptsDashboard path = true →
        sessionGate path .absent = .redirectSignIn)
    ∧ (interceptsDashboard path = false →
        ∀ check, sessionGate path check = .next) := by
  refine ⟨interceptsDashboard_iff path, ?_, ?_⟩
  · intro h
    simp [sessionGate, h, gateDecision, userOf]
  · intro h check
    simp [sessionGate, h]

/-- Witness for C1 at the concrete path `/dashboard/settings`. -/
theorem gate_intercepts_iff_dashboard_witness :
    underDashboard "/dashboard/settings"
    ∧ sessionGate "/dashboard/settings" .absent = .redirectSignIn :=
  ⟨(gate_intercepts_iff_dashboard "/dashboard/settings").1.mp (by decide),
   (gate_intercepts_iff_dashboard "/dashboard/settings").2.1 (by decide)⟩

/-- C8: any session-validation error is treated exactly as the absence of a
user (the gate answers a failed check just as it answers a missing session),
and on every request the gate's only outcomes are passing the request on or
redirecting to sign-in — it never lets an exception escape. -/
theorem gate_error_is_no_user (path : String) (err : String)
    (check : SessionCheck) :
    sessionGate path (.failure err) = sessionGate path .absent
    ∧ (sessionGate path check = .next
        ∨ sessionGate path check = .redirectSignIn) := by
  constructor
  · simp [sessionGate, gateDecision, userOf]
  · unfold sessionGate gateDecision
    cases h : userOf check <;> simp

/-- C9: for both the sign-up and the update-password form, the remote auth
call is made only when the submitted password has 6 to 72 characters and
equals the confirmation field; whenever those conditions fail the submission
ends in a field validation error with no remote call.  For the
update-password form the conditions are exactly equivalent to the call being
made. -/
theorem password_schema_gates_remote_call (emailOk : String → Bool)
    (v : SignUpValues) (w : UpdatePasswordValues) :
    (∀ p, signUpSubmit emailOk v = .remoteCall p →
      6 ≤ v.password.length ∧ v.password.length ≤ 72
        ∧ v.password = v.confirmPassword)
    ∧ (¬ (6 ≤ v.password.length ∧ v.password.length ≤ 72
          ∧ v.password = v.confirmPassword) →
        signUpSubmit emailOk v = .fieldError)
    ∧ (updatePasswordSubmit w = .remoteCall w.password ↔
        6 ≤ w.password.length ∧ w.password.length ≤ 72
          ∧ w.password = w.confirmPassword) := by
  refine ⟨?_, ?_, ?_, ?_⟩
  · intro p hp
    by_cases h : signUpValid emailOk v = true
    · unfold signUpValid at h
      simp only [Bool.and_eq_true, decide_eq_true_eq, beq_iff_eq] at h
      exact ⟨h.1.1.1.2, h.1.1.2, h.2⟩
    · simp [signUpSubmit, h] at hp
  · intro h
    have hv : ¬ signUpValid emailOk v = true := by
      intro hv
      unfold signUpValid at hv
      simp only [Bool.and_eq_true, decide_eq_true_eq, beq_iff_eq] at hv
      exact h ⟨hv.1.1.1.2, hv.1.1.2, hv.2⟩
    simp [signUpSubmit, hv]
  · intro hp
    by_cases h : updatePasswordValid w = true
    · unfold updatePasswordValid at h
      simp only [Bool.and_eq_true, decide_eq_true_eq, beq_iff_eq] at h
      exact ⟨h.1.1.1, h.1.1.2, h.2⟩
    · simp [updatePasswordSubmit, h] at hp
  · rintro ⟨h1, h2, h3⟩
    have hv : updatePasswordValid w = true := by
      unfold updatePasswordValid
      simp only [Bool.and_eq_true, decide_eq_true_eq, beq_iff_eq]
      refine ⟨⟨⟨h1, h2⟩, ?_⟩, h3⟩
      rw [← h3]
      omega
    simp [updatePasswordSubmit, hv]

/-- Witness for C9: a 3-character password is rejected without a remote
call, and a valid matching 7-character password reaches the remote call. -/
theorem password_schema_gates_remote_call_witness :
    signUpSubmit (fun _ => true) ⟨"a@b.c", "abc", "abc"⟩ = .fieldError
    ∧ updatePasswordSubmit ⟨"secret1", "secret1"⟩ = .remoteCall "secret1" :=
  ⟨(password_schema_gates_remote_call (fun _ => true)
      ⟨"a@b.c", "abc", "abc"⟩ ⟨"secret1", "secret1"⟩).2.1 (by decide),
   (password_schema_gates_remote_call (fun _ => true)
      ⟨"a@b.c", "abc", "abc"⟩ ⟨"secret1", "secret1"⟩).2.2.mpr (by decide)⟩

/-- C10: the update-password path is not matched by the session-gate
middleware, yet the page itself requires a session: with no authenticated
user it redirects to `/auth/signin?error=session_expired`, and only renders
the form when a user is present. -/
theorem update_password_page_guard :
    interceptsDashboard "/auth/update-password" = false
    ∧ updatePasswordPage none = .redirect "/auth/signin?error=session_expired"
    ∧ ∀ u : User, updatePasswordPage (some u) = .render := by
  refine ⟨by decide, rfl, fun u => rfl⟩


set_option maxRecDepth 8192 in
/-- C3: splitting `n` accepted records for bulk insert yields exactly
`⌈n/100⌉` batches whose concatenation is the original list, every batch
before the last having exactly 100 records and the last having `n mod 100`
when `n` is not a multiple of 100 (else 100); in particular 250 records
give 3 batches of sizes 100, 100, 50. -/
theorem import_batching {α : Type} (xs : List α) :
    (toBatches xs).length = (xs.length + 99) / 100
    ∧ (∀ b ∈ (toBatches xs).dropLast, b.length = 100)
    ∧ (∀ b, (toBatches xs).getLast? = some b →
        b.length = if xs.length % 100 = 0 then 100 else xs.length % 100)
    ∧ (toBatches xs).flatten = xs
    ∧ (toBatches (List.range 250)).map List.length = [100, 100, 50] := by
  refine ⟨toBatchesAux_length _ _ le_rfl, toBatchesAux_dropLast _ _ le_rfl,
    toBatchesAux_getLast _ _ le_rfl, toBatchesAux_flatten _ _ le_rfl, ?_⟩
  decide

set_option maxRecDepth 8192 in
/-- Witness for C3 on 250 records: the first batch (a member of all but the
last) has 100 records, and the last batch's size follows the remainder
rule. -/
theorem import_batching_witness :
    ((List.range 250).take 100).length = 100
    ∧ ((List.range 250).drop 200).length =
        (if (List.range 250).length % 100 = 0 then 100
          else (List.range 250).length % 100) :=
  ⟨(import_batching (List.range 250)).2.1 _ (by decide),
   (import_batching (List.range 250)).2.2.1 _ (by decide)⟩

/-- C4: in an import run where batch `k` fails, each batch has its own
report entry (index and outcome matching the remote result for exactly that
batch), batch `k`'s report records the failure, and every row of a batch
committed before `k` is still present in the committed rows — no cross-batch
rollback. -/
theorem import_partial_failure {α : Type} (okAt : Nat → Bool) (xs : List α)
    (k : Nat) (hk : k < (toBatches xs).length) (hfail : okAt k = false) :
    (runImport okAt xs).1.length = (toBatches xs).length
    ∧ (∀ j r, (runImport okAt xs).1[j]? = some r →
        r.index = j ∧ r.ok = okAt j)
    ∧ (∃ r, (runImport okAt xs).1[k]? = some r ∧ r.index = k ∧ r.ok = false)
    ∧ (∀ j b, j < k → (toBatches xs)[j]? = some b → okAt j = true →
        ∀ a ∈ b, a ∈ (runImport okAt xs).2) := by
  have hgen : ∀ j r, (runImport okAt xs).1[j]? = some r →
      r.index = j ∧ r.ok = okAt j := by
    intro j r h
    rcases importReports_get okAt (toBatches xs) 0 j r h with ⟨b, _, hr⟩
    subst hr
    simp
  refine ⟨importReports_length okAt (toBatches xs) 0, hgen, ?_, ?_⟩
  · have hk' : k < (runImport okAt xs).1.length := by
      show k < (importReports okAt 0 (toBatches xs)).length
      rw [importReports_length okAt (toBatches xs) 0]
      exact hk
    refine ⟨(runImport okAt xs).1[k], List.getElem?_eq_getElem hk', ?_, ?_⟩
    · exact (hgen k _ (List.getElem?_eq_getElem hk')).1
    · rw [(hgen k _ (List.getElem?_eq_getElem hk')).2]
      exact hfail
  · intro j b _ hb hok a ha
    exact mem_importCommitted okAt (toBatches xs) 0 j b a hb (by simpa using hok) ha

set_option maxRecDepth 8192 in
/-- Witness for C4: with 250 records and the remote failing exactly batch 1,
batch 1's report records the failure and the row 0 inserted by batch 0 is
still committed. -/
theorem import_partial_failure_witness :
    (∃ r, (runImport (fun i => i != 1) (List.range 250)).1[1]? = some r
        ∧ r.index = 1 ∧ r.ok = false)
    ∧ (0 : Nat) ∈ (runImport (fun i => i != 1) (List.range 250)).2 :=
  ⟨(import_partial_failure (fun i => i != 1) (List.range 250) 1
      (by decide) (by decide)).2.2.1,
   (import_partial_failure (fun i => i != 1) (List.range 250) 1
      (by decide) (by decide)).2.2.2
      0 ((List.range 250).take 100) (by decide) (by decide) (by decide)
      0 (by decide)⟩


/-- C5: a collection that already has a slug keeps it when made public
(making public twice never changes an assigned slug), toggling back to
private leaves the slug in place, and a re-publish after a private spell
reuses the same slug. -/
theorem slug_toggle_idempotent (c : Collection) (g g' : String) :
    (makePublic g' (makePublic g c)).slug = (makePublic g c).slug
    ∧ (∀ s, c.slug = some s → (makePublic g c).slug = some s)
    ∧ (makePrivate c).slug = c.slug
    ∧ (makePublic g' (makePrivate (makePublic g c))).slug =
        (makePublic g c).slug := by
  rcases c with ⟨p, sl⟩
  cases sl <;> simp [makePublic, makePrivate]

/-- Witness for C5: an already-slugged collection keeps its slug on
publish. -/
theorem slug_toggle_idempotent_witness :
    (makePublic "zzzzzzzz" ⟨false, some "abc12345"⟩).slug = some "abc12345" :=
  (slug_toggle_idempotent ⟨false, some "abc12345"⟩ "zzzzzzzz" "q").2.1
    "abc12345" rfl

/-- C7: every anchor yields exactly one candidate record (the parse is a
map over the anchors), the URL is the href unchanged, the title is the
anchor text with the href as fallback for empty text, and the timestamp
comes from a present-and-numeric add-date, otherwise the current time; the
spec's example anchor parses as stated. -/
theorem import_parser_per_anchor (now : Nat) (anchors : List Anchor)
    (a : Anchor) :
    (parseImport now anchors).length = anchors.length
    ∧ (∀ i : Nat,
        (parseImport now anchors)[i]? = (anchors[i]?).map (parseAnchor now))
    ∧ (parseAnchor now a).url = a.href
    ∧ (a.text = "" → (parseAnchor now a).title = a.href)
    ∧ (a.text ≠ "" → (parseAnchor now a).title = a.text)
    ∧ (∀ d n, a.addDate = some d → decimalNat d = some n →
        (parseAnchor now a).createdAt = n)
    ∧ (a.addDate = none → (parseAnchor now a).createdAt = now)
    ∧ (∀ d, a.addDate = some d → decimalNat d = none →
        (parseAnchor now a).createdAt = now)
    ∧ parseAnchor 77 ⟨"https://x.com", "Example", some "1000000000"⟩ =
        ⟨"https://x.com", "Example", 1000000000⟩ := by
  refine ⟨by simp [parseImport], by intro i; simp [parseImport],
    rfl, ?_, ?_, ?_, ?_, ?_, by decide⟩
  · intro h
    simp [parseAnchor, h]
  · intro h
    simp [parseAnchor, h]
  · intro d n hd hn
    simp [parseAnchor, hd, hn]
  · intro h
    simp [parseAnchor, h]
  · intro d hd hn
    simp [parseAnchor, hd, hn]

/-- Witness for C7: the spec's example anchor gives title `Example` and
timestamp 1000000000; an empty-text anchor falls back to its href, and a
missing add-date falls back to the current time. -/
theorem import_parser_per_anchor_witness :
    (parseAnchor 77 ⟨"https://x.com", "Example", some "1000000000"⟩).title =
        "Example"
    ∧ (parseAnchor 77
        ⟨"https://x.com", "Example", some "1000000000"⟩).createdAt =
        1000000000
    ∧ (parseAnchor 99 ⟨"https://y.com", "", none⟩).title = "https://y.com"
    ∧ (parseAnchor 99 ⟨"https://y.com", "", none⟩).createdAt = 99 :=
  ⟨(import_parser_per_anchor 77 []
      ⟨"https://x.com", "Example", some "1000000000"⟩).2.2.2.2.1 (by decide),
   (import_parser_per_anchor 77 []
      ⟨"https://x.com", "Example", some "1000000000"⟩).2.2.2.2.2.1
      "1000000000" 1000000000 rfl (by decide),
   (import_parser_per_anchor 99 [] ⟨"https://y.com", "", none⟩).2.2.2.1 rfl,
   (import_parser_per_anchor 99 [] ⟨"https://y.com", "", none⟩).2.2.2.2.2.2.1
      rfl⟩

/-- C2: metadata extraction is total — a network error, a timeout of the
5-second-bounded fetch, or a parse failure each yield the record with all
three fields null, and every outcome yields a well-formed record (no error
propagates to the caller). -/
theorem metadata_total_on_failure (url : String) (outcome : FetchOutcome) :
    fetchMetadata url .networkError = ⟨none, none, none⟩
    ∧ fetchMetadata url .timeout = ⟨none, none, none⟩
    ∧ fetchMetadata url .parseFailure = ⟨none, none, none⟩
    ∧ ∃ m : Metadata, fetchMetadata url outcome = m :=
  ⟨rfl, rfl, rfl, ⟨fetchMetadata url outcome, rfl⟩⟩

/-- C6: on a successfully fetched and parsed page the extractor follows the
priority order — OpenGraph title, else document title tag (else null);
OpenGraph description, else standard meta description (else null); icon
link, else shortcut icon link, else same-origin `/favicon.ico` built from
the input URL; and the spec's `og:title` example yields title `X`. -/
theorem metadata_priority (url : String) (tags : List HeadTag) :
    (∀ t, findMetaProperty "og:title" tags = some t →
      (fetchMetadata url (.success tags)).title = some t)
    ∧ (findMetaProperty "og:title" tags = none →
        (fetchMetadata url (.success tags)).title = findTitleTag tags)
    ∧ (∀ d, findMetaProperty "og:description" tags = some d →
        (fetchMetadata url (.success tags)).description = some d)
    ∧ (findMetaProperty "og:description" tags = none →
        (fetchMetadata url (.success tags)).description =
          findMetaNamed "description" tags)
    ∧ (∀ f, findLinkTag "icon" tags = some f →
        (fetchMetadata url (.success tags)).favicon_url = some f)
    ∧ (findLinkTag "icon" tags = none →
        ∀ f, findLinkTag "shortcut icon" tags = some f →
          (fetchMetadata url (.success tags)).favicon_url = some f)
    ∧ (findLinkTag "icon" tags = none →
        findLinkTag "shortcut icon" tags = none →
          (fetchMetadata url (.success tags)).favicon_url =
            some (origin url ++ "/favicon.ico"))
    ∧ (fetchMetadata "https://x.com/page"
        (.success [.metaProperty "og:title" "X"])).title = some "X" := by
  refine ⟨?_, ?_, ?_, ?_, ?_, ?_, ?_, by decide⟩
  · intro t h
    simp [fetchMetadata, extractMetadata, h, Option.orElse]
  · intro h
    simp [fetchMetadata, extractMetadata, h, Option.orElse]
  · intro d h
    simp [fetchMetadata, extractMetadata, h, Option.orElse]
  · intro h
    simp [fetchMetadata, extractMetadata, h, Option.orElse]
  · intro f h
    simp [fetchMetadata, extractMetadata, h, Option.orElse]
  · intro h f h'
    simp [fetchMetadata, extractMetadata, h, h', Option.orElse]
  · intro h h'
    simp [fetchMetadata, extractMetadata, h, h', Option.orElse]

/-- Witness for C6: `og:title` wins over the document title, the document
title is used when no `og:title` exists, and an empty head falls back to
the same-origin `/favicon.ico`. -/
theorem metadata_priority_witness :
    (fetchMetadata "https://x.com/page"
      (.success [.titleTag "Doc", .metaProperty "og:title" "X"])).title =
        some "X"
    ∧ (fetchMetadata "https://x.com/page"
        (.success [.titleTag "Doc"])).title = some "Doc"
    ∧ (fetchMetadata "https://x.com/page" (.success [])).favicon_url =
        some "https://x.com/favicon.ico" := by
  refine ⟨?_, ?_, ?_⟩
  · exact (metadata_priority "https://x.com/page"
      [.titleTag "Doc", .metaProperty "og:title" "X"]).1 "X" (by decide)
  · have h := (metadata_priority "https://x.com/page" [.titleTag "Doc"]).2.1
      (by decide)
    simpa using h
  · have h := (metadata_priority "https://x.com/page"
      []).2.2.2.2.2.2.1 rfl rfl
    have ho : origin "https://x.com/page" ++ "/favicon.ico" =
        "https://x.com/favicon.ico" := by decide
    rw [ho] at h
    exact h

end Portal
